import Mathlib

/-!
Shallow embedding of the POSIX advisory file-range lock engine
(flock family: FlockRange, Flock, FlockBuilder, FlockList) of the
repository, together with proofs about the claims of its specification.

Machine integers are modelled as follows:
- usize values are Nat together with explicit wrapping modulo 2 ^ 64
  at every arithmetic operation of the source that can wrap
  (release-profile semantics of the source language, where overflow
  of the builtin integer operators wraps);
- off_t (i64) values are Int; the one checked operation of the source
  (checked_add) is modelled with explicit range tests; the remaining
  i64 operations of the source are proved unable to overflow for
  inputs in the i64 range, so plain Int arithmetic is faithful there.

Fallible operations return Except; operations of the source that can
only fail by an assertion (expect / index panic) return Except Panic.
-/

/-- Errno values that the modelled code can return. -/
inductive Errno where
  | EINVAL
  | EOVERFLOW
  | EAGAIN
deriving DecidableEq, Repr

/-- Assertion failures (expect calls, out-of-bounds indexing) of the
modelled code, plus exhaustion of the explicit fuel that models the
source loops. -/
inductive Panic where
  | outOfFuel
  | mergeRangeFailed
  | invalidNewStart
  | invalidNewEnd
  | indexOutOfBounds
deriving DecidableEq, Repr

/-- The modulus of usize arithmetic. -/
def USIZE : Nat := 2 ^ 64

/-- RANGE_EOF of range.rs: usize::max_value(). -/
def RANGE_EOF : Nat := USIZE - 1

/-- Wrapping usize addition. -/
def add64 (a b : Nat) : Nat := (a + b) % USIZE

/-- Wrapping usize subtraction, for operands below USIZE. -/
def sub64 (a b : Nat) : Nat := (a + USIZE - b) % USIZE

/-- FlockType of mod.rs. -/
inductive FlockType where
  | F_RDLCK
  | F_WRLCK
  | F_UNLCK
deriving DecidableEq, Repr

/-- The u16 representation of a FlockType (repr(u16) discriminants). -/
def FlockType.toCode : FlockType → Nat
  | .F_RDLCK => 0
  | .F_WRLCK => 1
  | .F_UNLCK => 2

/-- FlockType::from_u16 of mod.rs. -/
def FlockType.from_u16 (t : Nat) : Except Errno FlockType :=
  match t with
  | 0 => .ok .F_RDLCK
  | 1 => .ok .F_WRLCK
  | 2 => .ok .F_UNLCK
  | _ => .error .EINVAL

/-- FlockRange of range.rs: two usize offsets.  The source field named
end is called end_ here because end is a keyword of Lean. -/
structure FlockRange where
  start : Nat
  end_ : Nat
deriving DecidableEq, Repr

/-- FlockRange::new of range.rs.  start and len are off_t (i64).
The i64 subtractions len - 1 and start - 1 and the i64 addition
start + len of the source cannot overflow for i64 inputs (start is
checked nonnegative first), so they are plain Int arithmetic; the
checked_add of the source is the explicit range test. -/
def FlockRange.new (start len : Int) : Except Errno FlockRange :=
  if start < 0 then .error .EINVAL
  else if 0 < len then
    if start + (len - 1) ≤ (2 : Int) ^ 63 - 1 then
      .ok ⟨start.toNat, (start + (len - 1)).toNat⟩
    else .error .EOVERFLOW
  else if len = 0 then .ok ⟨start.toNat, RANGE_EOF⟩
  else
    if start + len < 0 then .error .EINVAL
    else .ok ⟨(start + len).toNat, (start - 1).toNat⟩

/-- FlockRange::len of range.rs: self.end - self.start + 1 in usize. -/
def FlockRange.len (r : FlockRange) : Nat := add64 (sub64 r.end_ r.start) 1

/-- FlockRange::set_start of range.rs; none models the EINVAL return
(which list callers turn into a panic via expect).  The range report
of the source only drives waiter wake-ups, which have no effect on any
modelled field, so it is dropped. -/
def FlockRange.set_start (r : FlockRange) (new_start : Nat) : Option FlockRange :=
  if r.end_ < new_start then none else some ⟨new_start, r.end_⟩

/-- FlockRange::set_end of range.rs. -/
def FlockRange.set_end (r : FlockRange) (new_end : Nat) : Option FlockRange :=
  if new_end < r.start then none else some ⟨r.start, new_end⟩

/-- FlockRange::overlap_with of range.rs. -/
def FlockRange.overlap_with (a b : FlockRange) : Bool :=
  decide (a.start ≤ b.end_) && decide (b.start ≤ a.end_)

/-- FlockRange::left_overlap_with of range.rs. -/
def FlockRange.left_overlap_with (a b : FlockRange) : Bool :=
  FlockRange.overlap_with a b && decide (a.start ≤ b.start) && decide (a.end_ < b.end_)

/-- FlockRange::middle_overlap_with of range.rs. -/
def FlockRange.middle_overlap_with (a b : FlockRange) : Bool :=
  FlockRange.overlap_with a b && decide (b.start < a.start) && decide (a.end_ < b.end_)

/-- FlockRange::right_overlap_with of range.rs. -/
def FlockRange.right_overlap_with (a b : FlockRange) : Bool :=
  FlockRange.overlap_with a b && decide (b.start < a.start) && decide (b.end_ ≤ a.end_)

/-- FlockRange::adjacent_or_overlap_with of range.rs.  The usize
subtractions other.start - 1 and self.start - 1 wrap. -/
def FlockRange.adjacent_or_overlap_with (a b : FlockRange) : Bool :=
  (decide (a.end_ = sub64 b.start 1) || decide (b.end_ = sub64 a.start 1))
    || FlockRange.overlap_with a b

/-- FlockRange::in_front_of of range.rs: self.end < other.start - 1 in
usize; the subtraction wraps when other.start = 0. -/
def FlockRange.in_front_of (a b : FlockRange) : Bool :=
  decide (a.end_ < sub64 b.start 1)

/-- FlockRange::in_front_of_or_adjacent_before of range.rs. -/
def FlockRange.in_front_of_or_adjacent_before (a b : FlockRange) : Bool :=
  decide (a.end_ < b.start)

/-- FlockRange::merge of range.rs; none models the EINVAL return
(turned into a panic by Flock::merge_range via expect). -/
def FlockRange.merge (r other : FlockRange) : Option FlockRange :=
  if ! FlockRange.adjacent_or_overlap_with r other then none
  else some ⟨if other.start < r.start then other.start else r.start,
             if r.end_ < other.end_ then other.end_ else r.end_⟩

/-- Flock of mod.rs.  The owner (an ObjectId, a u64) and the pid (a
u32) are modelled as Nat; the waiter queue is modelled opaquely as an
optional tag, since no modelled claim inspects queue contents (waking
drains a queue but never changes which queue a lock holds). -/
structure Flock where
  owner : Nat
  type_ : FlockType
  range : FlockRange
  pid : Nat
  waiters : Option Nat
  is_nonblocking : Bool
deriving DecidableEq, Repr

/-- The Clone implementation of Flock in mod.rs: a field copy that
never clones the waiter queue. -/
def Flock.cloneF (f : Flock) : Flock := { f with waiters := none }

/-- Flock::same_owner_with of mod.rs. -/
def Flock.same_owner_with (a b : Flock) : Bool := decide (a.owner = b.owner)

/-- Flock::same_type_with of mod.rs. -/
def Flock.same_type_with (a b : Flock) : Bool := decide (a.type_ = b.type_)

/-- Flock::conflict_with of mod.rs. -/
def Flock.conflict_with (a b : Flock) : Bool :=
  if Flock.same_owner_with a b then false
  else if ! FlockRange.overlap_with a.range b.range then false
  else if decide (a.type_ = .F_WRLCK) || decide (b.type_ = .F_WRLCK) then true
  else false

/-- Flock::set_start of mod.rs: delegates to the range and wakes the
waiters on shrink (waking drains the queue of the source object but
changes no modelled field); none models the expect panic. -/
def Flock.set_start (f : Flock) (new_start : Nat) : Option Flock :=
  match FlockRange.set_start f.range new_start with
  | none => none
  | some r => some { f with range := r }

/-- Flock::set_end of mod.rs. -/
def Flock.set_end (f : Flock) (new_end : Nat) : Option Flock :=
  match FlockRange.set_end f.range new_end with
  | none => none
  | some r => some { f with range := r }

/-- Flock::reset_by of mod.rs: overwrite owner, type, range and pid,
leaving the waiter queue (and the non-blocking flag) untouched. -/
def Flock.reset_by (f lock : Flock) : Flock :=
  { f with owner := lock.owner, type_ := lock.type_, range := lock.range, pid := lock.pid }

/-- c_flock of mod.rs (the fcntl boundary control structure).
l_type and l_whence are u16, l_start and l_len are off_t (i64), l_pid
is a pid_t (u32). -/
structure c_flock where
  l_type : Nat
  l_whence : Nat
  l_start : Int
  l_len : Int
  l_pid : Nat
deriving DecidableEq, Repr

/-- The wrapping cast of a usize value to off_t (as off_t in the
source). -/
def usizeToOff (n : Nat) : Int :=
  if n < 2 ^ 63 then (n : Int) else (n : Int) - 2 ^ 64

/-- c_flock::copy_from_safe of mod.rs: write l_type always, and the
remaining fields only when the lock type is not F_UNLCK. -/
def c_flock.copy_from_safe (c : c_flock) (lock : Flock) : c_flock :=
  let c1 := { c with l_type := FlockType.toCode lock.type_ }
  if lock.type_ = .F_UNLCK then c1
  else
    { c1 with
      l_whence := 0
      l_start := usizeToOff lock.range.start
      l_len := if lock.range.end_ = RANGE_EOF then 0 else usizeToOff (FlockRange.len lock.range)
      l_pid := lock.pid }

/-- FlockRange::from_c_flock_and_file of range.rs, with the file
position and size (both off_t results of external collaborators)
passed as parameters.  The checked_add calls of the source are the
explicit range tests. -/
def FlockRange.from_c_flock (c : c_flock) (pos size : Int) : Except Errno FlockRange :=
  match c.l_whence with
  | 0 => FlockRange.new c.l_start c.l_len
  | 1 =>
    if (-(2 : Int) ^ 63) ≤ pos + c.l_start ∧ pos + c.l_start ≤ (2 : Int) ^ 63 - 1 then
      FlockRange.new (pos + c.l_start) c.l_len
    else .error .EOVERFLOW
  | 2 =>
    if (-(2 : Int) ^ 63) ≤ size + c.l_start ∧ size + c.l_start ≤ (2 : Int) ^ 63 - 1 then
      FlockRange.new (size + c.l_start) c.l_len
    else .error .EOVERFLOW
  | _ => .error .EINVAL

/-- FlockBuilder of builder.rs. -/
structure FlockBuilder where
  owner : Option Nat
  type_ : Option FlockType
  range : Option FlockRange
  pid : Option Nat
  waiters : Option Nat
  is_nonblocking : Option Bool
deriving DecidableEq, Repr

/-- FlockBuilder::new of builder.rs. -/
def FlockBuilder.new : FlockBuilder :=
  ⟨none, none, none, none, none, none⟩

/-- FlockBuilder::build of builder.rs; the current process id (the
pid default queried from the current task) is a parameter. -/
def FlockBuilder.build (b : FlockBuilder) (currentPid : Nat) : Except Errno Flock :=
  match b.owner with
  | none => .error .EINVAL
  | some owner =>
    match b.type_ with
    | none => .error .EINVAL
    | some type_ =>
      match b.range with
      | none => .error .EINVAL
      | some range =>
        .ok { owner := owner
              type_ := type_
              range := range
              pid := b.pid.getD currentPid
              waiters := b.waiters
              is_nonblocking := b.is_nonblocking.getD true }

example : FlockRange.new 5 6 = .ok ⟨5, 10⟩ := by rfl
example : FlockRange.new 3 (-2) = .ok ⟨1, 2⟩ := by rfl
example : FlockRange.new 0 0 = .ok ⟨0, RANGE_EOF⟩ := by rfl
example : FlockRange.in_front_of ⟨5, 5⟩ ⟨0, 3⟩ = true := by decide

/-- Iterator::position over a list of locks: the index, within the
iterated list, of the first element satisfying the predicate. -/
def position (p : Flock → Bool) : List Flock → Option Nat
  | [] => none
  | x :: xs => if p x then some 0 else (position p xs).map (· + 1)

/-- VecDeque::swap of two indices (both in range whenever the source
calls it). -/
def swapIdx (l : List Flock) (i j : Nat) : List Flock :=
  match l[i]?, l[j]? with
  | some a, some b => (l.set i b).set j a
  | _, _ => l

/-- The scan of FlockList::test_lock of mod.rs: on the first record
that conflicts with the probe, reset the probe from it; if none
conflicts, set the probe type to F_UNLCK. -/
def test_lock_scan (lock : Flock) : List Flock → Flock
  | [] => { lock with type_ := .F_UNLCK }
  | x :: xs => if Flock.conflict_with lock x then Flock.reset_by lock x else test_lock_scan lock xs

/-- FlockList::test_lock of mod.rs: the scan under the read lock; the
list is returned unchanged (the source holds only a read guard). -/
def FlockList.test_lock (l : List Flock) (lock : Flock) : List Flock × Flock :=
  (l, test_lock_scan lock l)

/-- The restore loop of FlockList::insert_lock_into_list of mod.rs,
walking a (pre, next) cursor; fuel models the source loop, whose
iteration count is bounded by the list length. -/
def insertLoop : Nat → Nat → Nat → List Flock → Except Panic (List Flock)
  | 0, _, _, _ => .error .outOfFuel
  | fuel + 1, preIdx, nextIdx, l =>
    if l.length ≤ nextIdx then .ok l
    else
      match l[preIdx]?, l[nextIdx]? with
      | some pre, some next =>
        if ! Flock.same_owner_with next pre then .ok l
        else if Flock.same_type_with next pre then
          if FlockRange.in_front_of pre.range next.range then .ok l
          else if FlockRange.in_front_of next.range pre.range then
            insertLoop fuel (preIdx + 1) (nextIdx + 1) (swapIdx l preIdx nextIdx)
          else
            match FlockRange.merge next.range pre.range with
            | none => .error .mergeRangeFailed
            | some r =>
              insertLoop fuel preIdx nextIdx ((l.set nextIdx { next with range := r }).eraseIdx preIdx)
        else
          if FlockRange.in_front_of_or_adjacent_before pre.range next.range then .ok l
          else if FlockRange.in_front_of_or_adjacent_before next.range pre.range then
            insertLoop fuel (preIdx + 1) (nextIdx + 1) (swapIdx l preIdx nextIdx)
          else if FlockRange.left_overlap_with pre.range next.range then
            match Flock.set_start next (add64 pre.range.end_ 1) with
            | none => .error .invalidNewStart
            | some n2 => .ok (l.set nextIdx n2)
          else if FlockRange.middle_overlap_with pre.range next.range then
            match Flock.set_start (Flock.cloneF next) (add64 pre.range.end_ 1) with
            | none => .error .invalidNewStart
            | some rlk =>
              match Flock.set_end next (sub64 pre.range.start 1) with
              | none => .error .invalidNewEnd
              | some n2 =>
                .ok (List.insertIdx (nextIdx + 1) rlk (swapIdx (l.set nextIdx n2) preIdx nextIdx))
          else if FlockRange.right_overlap_with pre.range next.range then
            match Flock.set_end next (sub64 pre.range.start 1) with
            | none => .error .invalidNewEnd
            | some n2 => insertLoop fuel (preIdx + 1) (nextIdx + 1) (swapIdx (l.set nextIdx n2) preIdx nextIdx)
          else
            insertLoop fuel preIdx nextIdx (l.eraseIdx nextIdx)
      | _, _ => .error .indexOutOfBounds

/-- FlockList::insert_lock_into_list of mod.rs: push the clone at the
head when no record shares the owner, else insert it at the first
same-owner index and run the restore loop. -/
def FlockList.insert_lock_into_list (l : List Flock) (lock : Flock) : Except Panic (List Flock) :=
  match position (fun lk => Flock.same_owner_with lk lock) l with
  | none => .ok (Flock.cloneF lock :: l)
  | some idx => insertLoop (l.length + 2) idx (idx + 1) (List.insertIdx idx (Flock.cloneF lock) l)

/-- The outcome of one pass of FlockList::set_lock.  blocked stands
for the branch that enqueues a waiter, drops the list lock and
suspends; the loop continuation after a wake is a fresh pass over the
then-current list. -/
inductive SetLockResult where
  | granted
  | refused (e : Errno)
  | blocked
  | panicked (p : Panic)
deriving DecidableEq, Repr

/-- FlockList::set_lock of mod.rs, one pass of its loop, paired with
the list it leaves behind: the conflict probe, then EAGAIN (list
untouched) for a non-blocking request, blocking for a blocking one,
and insertion when no record conflicts. -/
def FlockList.set_lock (l : List Flock) (lock : Flock) : SetLockResult × List Flock :=
  match position (fun x => Flock.conflict_with x lock) l with
  | some _ =>
    if lock.is_nonblocking then (.refused .EAGAIN, l) else (.blocked, l)
  | none =>
    match FlockList.insert_lock_into_list l lock with
    | .ok l2 => (.granted, l2)
    | .error p => (.panicked p, l)

/-- The loop of FlockList::unlock of mod.rs.  The source computes the
match position on iter().skip(skipped) — an index relative to the
skipped iterator — and then indexes the full list with it; the model
reproduces that indexing faithfully. -/
def unlockLoop (lock : Flock) : Nat → Nat → List Flock → Except Panic (List Flock)
  | 0, _, _ => .error .outOfFuel
  | fuel + 1, skipped, l =>
    match position
        (fun lk => Flock.same_owner_with lk lock && FlockRange.overlap_with lk.range lock.range)
        (l.drop skipped) with
    | none => .ok l
    | some relIdx =>
      match l[relIdx]? with
      | none => .error .indexOutOfBounds
      | some ex =>
        if FlockRange.left_overlap_with lock.range ex.range then
          match Flock.set_start ex (add64 lock.range.end_ 1) with
          | none => .error .invalidNewStart
          | some ex2 => .ok (l.set relIdx ex2)
        else if FlockRange.middle_overlap_with lock.range ex.range then
          match Flock.set_start (Flock.cloneF ex) (add64 lock.range.end_ 1) with
          | none => .error .invalidNewStart
          | some rlk =>
            match Flock.set_end ex (sub64 lock.range.start 1) with
            | none => .error .invalidNewEnd
            | some ex2 => .ok (List.insertIdx (relIdx + 1) rlk (l.set relIdx ex2))
        else if FlockRange.right_overlap_with lock.range ex.range then
          match Flock.set_end ex (sub64 lock.range.start 1) with
          | none => .error .invalidNewEnd
          | some ex2 => unlockLoop lock fuel (relIdx + 1) (l.set relIdx ex2)
        else
          unlockLoop lock fuel relIdx (l.eraseIdx relIdx)

/-- FlockList::unlock of mod.rs; the fuel is one more than the loop
variant (list length plus the count of records overlapping the
request), which the termination proof below shows to suffice. -/
def FlockList.unlock (l : List Flock) (lock : Flock) : Except Panic (List Flock) :=
  unlockLoop lock
    (l.length + l.countP (fun x => FlockRange.overlap_with lock.range x.range) + 1) 0 l

/-- Invariant P1 of the specification: adjacent records of one owner
and one type are separated by a gap of at least two offsets (no merge
candidates remain). -/
def invP1 (l : List Flock) : Prop :=
  ∀ i j : Fin l.length, (j : Nat) = (i : Nat) + 1 →
    (l.get i).owner = (l.get j).owner → (l.get i).type_ = (l.get j).type_ →
    (l.get i).range.end_ + 1 < (l.get j).range.start

/-- Invariant P2 of the specification: adjacent records of one owner
and different types never overlap. -/
def invP2 (l : List Flock) : Prop :=
  ∀ i j : Fin l.length, (j : Nat) = (i : Nat) + 1 →
    (l.get i).owner = (l.get j).owner → (l.get i).type_ ≠ (l.get j).type_ →
    (l.get i).range.end_ < (l.get j).range.start

/-- Invariant P3 of the specification: within an owner, start offsets
are strictly ascending. -/
def invP3 (l : List Flock) : Prop :=
  ∀ i j : Fin l.length, (j : Nat) = (i : Nat) + 1 →
    (l.get i).owner = (l.get j).owner →
    (l.get i).range.start < (l.get j).range.start

/-- Invariant P4 of the specification: the records of one owner are
contiguous in the list. -/
def invP4 (l : List Flock) : Prop :=
  ∀ i j k : Fin l.length, i < j → j < k →
    (l.get i).owner = (l.get k).owner → (l.get j).owner = (l.get i).owner

/-- Invariant P5 of the specification: no record in a list has type
F_UNLCK. -/
def invP5 (l : List Flock) : Prop :=
  ∀ i : Fin l.length, (l.get i).type_ ≠ .F_UNLCK

/-- The ordering and merging invariants of the lock list, as the
specification quantifies them. -/
def listInvariants (l : List Flock) : Prop :=
  invP1 l ∧ invP2 l ∧ invP3 l ∧ invP4 l ∧ invP5 l

instance (l : List Flock) : Decidable (invP1 l) := by
  unfold invP1; infer_instance

instance (l : List Flock) : Decidable (invP2 l) := by
  unfold invP2; infer_instance

instance (l : List Flock) : Decidable (invP3 l) := by
  unfold invP3; infer_instance

instance (l : List Flock) : Decidable (invP4 l) := by
  unfold invP4; infer_instance

instance (l : List Flock) : Decidable (invP5 l) := by
  unfold invP5; infer_instance

instance (l : List Flock) : Decidable (listInvariants l) := by
  unfold listInvariants; infer_instance

theorem position_eq_none_iff {p : Flock → Bool} :
    ∀ {l : List Flock}, position p l = none ↔ ∀ x ∈ l, p x = false := by
  intro l
  induction l with
  | nil => simp [position]
  | cons x xs ih =>
    by_cases h : p x <;> simp [position, h, ih]

theorem position_some_lt {p : Flock → Bool} :
    ∀ {l : List Flock} {i : Nat}, position p l = some i → i < l.length := by
  intro l
  induction l with
  | nil => intro i h; simp [position] at h
  | cons x xs ih =>
    intro i h
    simp only [position] at h
    split at h
    · cases h
      simp
    · obtain ⟨j, hj, rfl⟩ := Option.map_eq_some'.mp h
      have := ih hj
      simp only [List.length_cons]
      omega

theorem exists_position_some {p : Flock → Bool} {l : List Flock}
    (h : ∃ x ∈ l, p x = true) : ∃ i, position p l = some i := by
  cases hp : position p l with
  | some i => exact ⟨i, rfl⟩
  | none =>
    exfalso
    obtain ⟨x, hx, hpx⟩ := h
    have := position_eq_none_iff.mp hp x hx
    rw [hpx] at this
    exact Bool.true_eq_false.mp this

def c1List : List Flock := [⟨1, .F_RDLCK, ⟨0, 10⟩, 1, none, true⟩]

def c1Req : Flock := ⟨1, .F_RDLCK, ⟨20, 30⟩, 1, none, true⟩

def c1Out : List Flock :=
  [⟨1, .F_RDLCK, ⟨20, 30⟩, 1, none, true⟩, ⟨1, .F_RDLCK, ⟨0, 10⟩, 1, none, true⟩]

/-- Claim C1: after a successful set_lock on an invariant-satisfying
list, adjacent same-owner same-type records satisfy
end + 1 < next start.  The code violates this: inserting the range
[20, 30] for an owner already holding [0, 10] leaves the list
unsorted and unmerged, because in_front_of compares against
start - 1 in wrapping usize arithmetic and start = 0 wraps to
usize::MAX, so the restore loop stops immediately.  This theorem
evaluates the code at that failing input: the input list satisfies
every invariant, set_lock succeeds, and both P1 and P3 fail on the
resulting list. -/
theorem c1_insert_breaks_invariant :
    listInvariants c1List ∧
    FlockList.set_lock c1List c1Req = (.granted, c1Out) ∧
    ¬ invP1 c1Out ∧ ¬ invP3 c1Out :=
  ⟨by decide, by rfl, by decide, by decide⟩

/-- Claim C2: in_front_of is claimed to satisfy
in_front_of A B = true iff A.end < B.start - 1 over the integers, in
particular false whenever B.start = 0.  The code evaluates
B.start - 1 in wrapping usize arithmetic: at A = [5, 5], B = [0, 3]
it returns true although 5 < 0 - 1 is false over the integers.  This
theorem evaluates the code at that failing input. -/
theorem c2_in_front_of_underflows :
    FlockRange.in_front_of ⟨5, 5⟩ ⟨0, 3⟩ = true ∧
    ¬ ((5 : Int) < 0 - 1) ∧
    sub64 0 1 = RANGE_EOF := by decide

def c3Builder : FlockBuilder := ⟨some 1, some .F_RDLCK, some ⟨0, 0⟩, none, none, none⟩

def c3Fl : Flock := ⟨1, .F_RDLCK, ⟨0, 0⟩, 7, none, true⟩

/-- Claim C3 counterexample: a builder with owner, type and range set
and is_nonblocking left unset builds successfully, but the built lock
is non-blocking (is_nonblocking is true), refuting the claim that the
default is a blocking request. -/
theorem c3_counterexample :
    c3Builder.is_nonblocking = none ∧
    FlockBuilder.build c3Builder 7 = .ok c3Fl ∧
    c3Fl.is_nonblocking = true :=
  ⟨rfl, rfl, rfl⟩

/-- Claim C3 (amended): build fails with InvalidArgument iff at least
one of owner, type or range was not set; when they are all set and
is_nonblocking was not set, the built lock is a NON-blocking request
(its is_nonblocking is true). -/
theorem c3_build_characterization (b : FlockBuilder) (pid : Nat) :
    (FlockBuilder.build b pid = .error .EINVAL ↔
      (b.owner = none ∨ b.type_ = none ∨ b.range = none)) ∧
    (b.is_nonblocking = none → ∀ fl, FlockBuilder.build b pid = .ok fl →
      fl.is_nonblocking = true) := by
  obtain ⟨o, t, r, p, w, nb⟩ := b
  cases o <;> cases t <;> cases r <;>
    simp [FlockBuilder.build] <;>
    intro h <;> simp [h]

/-- Witness for the amended claim C3 at a concrete builder. -/
theorem c3_build_characterization_witness :
    FlockBuilder.build c3Builder 7 = .ok c3Fl ∧ c3Fl.is_nonblocking = true :=
  ⟨rfl, (c3_build_characterization c3Builder 7).2 rfl c3Fl rfl⟩

/-- Claim C4: conflict_with a b is true iff a and b have different
owners, their ranges overlap, and at least one of them is a write
lock; consequently two locks of one owner never conflict. -/
theorem c4_conflict_characterization (a b : Flock) :
    (Flock.conflict_with a b = true ↔
      (a.owner ≠ b.owner ∧ a.range.start ≤ b.range.end_ ∧ b.range.start ≤ a.range.end_ ∧
        (a.type_ = .F_WRLCK ∨ b.type_ = .F_WRLCK))) ∧
    (a.owner = b.owner → Flock.conflict_with a b = false) := by
  by_cases h : a.owner = b.owner <;>
    simp [Flock.conflict_with, Flock.same_owner_with, FlockRange.overlap_with, h] <;>
    tauto

/-- Witness for claim C4: two different-owner write locks with
overlapping ranges conflict. -/
theorem c4_conflict_witness :
    Flock.conflict_with ⟨1, .F_WRLCK, ⟨0, 99⟩, 1, none, true⟩
      ⟨2, .F_WRLCK, ⟨50, 149⟩, 2, none, true⟩ = true :=
  (c4_conflict_characterization _ _).1.mpr (by decide)

/-- Claim C5: a non-blocking set_lock request that conflicts with some
record fails with EAGAIN and leaves the list exactly as it was. -/
theorem c5_nonblocking_conflict_refused (l : List Flock) (lock : Flock)
    (hnb : lock.is_nonblocking = true)
    (hc : ∃ x ∈ l, Flock.conflict_with x lock = true) :
    FlockList.set_lock l lock = (.refused .EAGAIN, l) := by
  obtain ⟨i, hi⟩ := exists_position_some hc
  unfold FlockList.set_lock
  rw [hi, hnb]
  rfl

/-- Witness for claim C5: owner A holds a write lock on [0, 99]; a
non-blocking write request by owner B for [50, 149] is refused with
EAGAIN and the list is unchanged. -/
theorem c5_witness :
    FlockList.set_lock [⟨1, .F_WRLCK, ⟨0, 99⟩, 1, none, true⟩]
      ⟨2, .F_WRLCK, ⟨50, 149⟩, 2, none, true⟩ =
      (.refused .EAGAIN, [⟨1, .F_WRLCK, ⟨0, 99⟩, 1, none, true⟩]) :=
  c5_nonblocking_conflict_refused _ _ (by decide)
    ⟨⟨1, .F_WRLCK, ⟨0, 99⟩, 1, none, true⟩, by simp, by decide⟩

/-- Claim C6: range construction from (start, len): a negative start
fails with InvalidArgument; a positive len yields
[start, start + len - 1], failing with Overflow when the end is not
representable as an i64; len = 0 yields [start, RANGE_EOF]; a
negative len yields [start + len, start - 1], failing with
InvalidArgument when start + len is negative. -/
theorem c6_range_construction (start len : Int) :
    (start < 0 → FlockRange.new start len = .error .EINVAL) ∧
    (0 ≤ start → 0 < len → start + len - 1 ≤ 2 ^ 63 - 1 →
      FlockRange.new start len = .ok ⟨start.toNat, (start + len - 1).toNat⟩) ∧
    (0 ≤ start → 0 < len → 2 ^ 63 - 1 < start + len - 1 →
      FlockRange.new start len = .error .EOVERFLOW) ∧
    (0 ≤ start → len = 0 → FlockRange.new start len = .ok ⟨start.toNat, RANGE_EOF⟩) ∧
    (0 ≤ start → len < 0 → start + len < 0 → FlockRange.new start len = .error .EINVAL) ∧
    (0 ≤ start → len < 0 → 0 ≤ start + len →
      FlockRange.new start len = .ok ⟨(start + len).toNat, (start - 1).toNat⟩) := by
  have harith : start + (len - 1) = start + len - 1 := by ring
  unfold FlockRange.new
  refine ⟨?_, ?_, ?_, ?_, ?_, ?_⟩
  · intro h1
    rw [if_pos h1]
  · intro h1 h2 h3
    rw [if_neg (by omega), if_pos h2, if_pos (by omega), harith]
  · intro h1 h2 h3
    rw [if_neg (by omega), if_pos h2, if_neg (by omega)]
  · intro h1 h2
    rw [if_neg (by omega), if_neg (by omega), if_pos h2]
  · intro h1 h2 h3
    rw [if_neg (by omega), if_neg (by omega), if_neg (by omega), if_pos h3]
  · intro h1 h2 h3
    rw [if_neg (by omega), if_neg (by omega), if_neg (by omega), if_neg (by omega)]

/-- Witness for claim C6 at start 3, len -2: the range [1, 2]. -/
theorem c6_witness : FlockRange.new 3 (-2) = .ok ⟨1, 2⟩ := by
  have h := (c6_range_construction 3 (-2)).2.2.2.2.2 (by decide) (by decide) (by decide)
  exact h

def c9List : List Flock :=
  [⟨2, .F_RDLCK, ⟨0, 100⟩, 2, none, true⟩,
   ⟨1, .F_RDLCK, ⟨10, 20⟩, 1, none, true⟩,
   ⟨1, .F_RDLCK, ⟨30, 40⟩, 1, none, true⟩]

def c9Req : Flock := ⟨1, .F_UNLCK, ⟨15, 35⟩, 1, none, true⟩

def c9Once : List Flock :=
  [⟨2, .F_RDLCK, ⟨0, 14⟩, 2, none, true⟩,
   ⟨2, .F_RDLCK, ⟨36, 100⟩, 2, none, true⟩,
   ⟨1, .F_RDLCK, ⟨10, 14⟩, 1, none, true⟩,
   ⟨1, .F_RDLCK, ⟨30, 40⟩, 1, none, true⟩]

def c9Twice : List Flock :=
  [⟨2, .F_RDLCK, ⟨0, 14⟩, 2, none, true⟩,
   ⟨2, .F_RDLCK, ⟨36, 100⟩, 2, none, true⟩,
   ⟨1, .F_RDLCK, ⟨10, 14⟩, 1, none, true⟩,
   ⟨1, .F_RDLCK, ⟨36, 40⟩, 1, none, true⟩]

theorem test_lock_scan_first_conflict (probe x : Flock) :
    ∀ pre post, (∀ y ∈ pre, Flock.conflict_with probe y = false) →
      Flock.conflict_with probe x = true →
      test_lock_scan probe (pre ++ x :: post) = Flock.reset_by probe x := by
  intro pre
  induction pre with
  | nil =>
    intro post _ hx
    simp [test_lock_scan, hx]
  | cons y ys ih =>
    intro post hpre hx
    have hy := hpre y (by simp)
    simp only [List.cons_append, test_lock_scan, hy]
    simp only [Bool.false_eq_true, if_false]
    exact ih post (fun z hz => hpre z (by simp [hz])) hx

theorem test_lock_scan_no_conflict (probe : Flock) :
    ∀ l, (∀ y ∈ l, Flock.conflict_with probe y = false) →
      test_lock_scan probe l = { probe with type_ := .F_UNLCK } := by
  intro l
  induction l with
  | nil => intro _; rfl
  | cons y ys ih =>
    intro h
    have hy := h y (by simp)
    simp only [test_lock_scan, hy, Bool.false_eq_true, if_false]
    exact ih (fun z hz => h z (by simp [hz]))

/-- Claim C8: test_lock leaves the list unchanged; when some record
conflicts with the probe, the probe comes back carrying the owner,
type, range and pid of the first conflicting record in list order
(waiters and the non-blocking flag untouched); when no record
conflicts, the probe comes back with type F_UNLCK and every other
field unchanged. -/
theorem c8_test_lock_characterization (l : List Flock) (probe : Flock) :
    (FlockList.test_lock l probe).1 = l ∧
    (∀ pre x post, l = pre ++ x :: post →
      (∀ y ∈ pre, Flock.conflict_with probe y = false) →
      Flock.conflict_with probe x = true →
      (FlockList.test_lock l probe).2 =
        { probe with owner := x.owner, type_ := x.type_, range := x.range, pid := x.pid }) ∧
    ((∀ x ∈ l, Flock.conflict_with probe x = false) →
      (FlockList.test_lock l probe).2 = { probe with type_ := .F_UNLCK }) := by
  refine ⟨rfl, ?_, ?_⟩
  · intro pre x post hl hpre hx
    subst hl
    exact test_lock_scan_first_conflict probe x pre post hpre hx
  · intro h
    exact test_lock_scan_no_conflict probe l h

def c8List : List Flock := [⟨1, .F_WRLCK, ⟨100, 199⟩, 1, none, true⟩]

def c8Probe : Flock := ⟨2, .F_WRLCK, ⟨150, 249⟩, 2, none, true⟩

/-- Witness for claim C8 at the probe scenario of the specification:
owner 1 holds WRLCK [100, 199]; owner 2 probes WRLCK [150, 249] and
the probe returns carrying owner 1's lock identity, with the list
unchanged. -/
theorem c8_test_lock_witness :
    (FlockList.test_lock c8List c8Probe).1 = c8List ∧
    (FlockList.test_lock c8List c8Probe).2 =
      { c8Probe with owner := 1, type_ := .F_WRLCK, range := ⟨100, 199⟩, pid := 1 } :=
  ⟨(c8_test_lock_characterization c8List c8Probe).1,
   (c8_test_lock_characterization c8List c8Probe).2.1 []
     ⟨1, .F_WRLCK, ⟨100, 199⟩, 1, none, true⟩ [] rfl (by simp) (by decide)⟩

theorem add64_eq_of_lt {a b : Nat} (h : a + b < USIZE) : add64 a b = a + b :=
  Nat.mod_eq_of_lt h

theorem sub64_eq_of_le {a b : Nat} (h1 : b ≤ a) (h2 : a < USIZE) : sub64 a b = a - b := by
  unfold sub64 USIZE at *
  rw [show a + 2 ^ 64 - b = (a - b) + 2 ^ 64 by omega, Nat.add_mod_right]
  exact Nat.mod_eq_of_lt (by omega)

theorem sub64_one_eq {a : Nat} (h1 : 1 ≤ a) (h2 : a < USIZE) : sub64 a 1 = a - 1 :=
  sub64_eq_of_le h1 h2

/-- Fuel sufficiency and absence of panics for the unlock loop: with
fuel exceeding list length plus the count of records overlapping the
request, the loop returns ok.  The metric decreases on both looping
branches: the removal branch shrinks the list, and the right-overlap
branch turns an overlapping record into a non-overlapping one. -/
theorem unlockLoop_ok (lock : Flock) (hstart : lock.range.start < USIZE) :
    ∀ fuel l skipped,
      l.length + l.countP (fun x => FlockRange.overlap_with lock.range x.range) < fuel →
      (∀ x ∈ l, x.range.end_ < USIZE) →
      ∃ l2, unlockLoop lock fuel skipped l = .ok l2 := by
  intro fuel
  induction fuel with
  | zero =>
    intro l skipped hfuel _
    exact absurd hfuel (Nat.not_lt_zero _)
  | succ fuel ih =>
    intro l skipped hfuel hbound
    rw [unlockLoop]
    cases hpos : position
        (fun lk => Flock.same_owner_with lk lock && FlockRange.overlap_with lk.range lock.range)
        (l.drop skipped) with
    | none => exact ⟨l, rfl⟩
    | some relIdx =>
      have hrel : relIdx < l.length := by
        have h1 := position_some_lt hpos
        rw [List.length_drop] at h1
        omega
      have hex : l[relIdx]? = some l[relIdx] := List.getElem?_eq_getElem hrel
      set ex := l[relIdx] with hexdef
      have hmem : ex ∈ l := List.getElem_mem hrel
      have hexb : ex.range.end_ < USIZE := hbound ex hmem
      dsimp only
      rw [hex]
      by_cases h1 : FlockRange.left_overlap_with lock.range ex.range = true
      · have h1' := h1
        simp only [FlockRange.left_overlap_with, FlockRange.overlap_with, Bool.and_eq_true,
          decide_eq_true_eq] at h1'
        have h1e : lock.range.end_ < ex.range.end_ := h1'.2
        have hadd : add64 lock.range.end_ 1 = lock.range.end_ + 1 :=
          add64_eq_of_lt (by omega)
        simp only [h1, if_true]
        unfold Flock.set_start FlockRange.set_start
        rw [hadd, if_neg (by omega)]
        exact ⟨_, rfl⟩
      · by_cases h2 : FlockRange.middle_overlap_with lock.range ex.range = true
        · have h2' := h2
          simp only [FlockRange.middle_overlap_with, FlockRange.overlap_with, Bool.and_eq_true,
            decide_eq_true_eq] at h2'
          have h2p : ex.range.start < lock.range.start ∧ lock.range.end_ < ex.range.end_ :=
            ⟨h2'.1.2, h2'.2⟩
          have hadd : add64 lock.range.end_ 1 = lock.range.end_ + 1 :=
            add64_eq_of_lt (by omega)
          have hsub : sub64 lock.range.start 1 = lock.range.start - 1 :=
            sub64_one_eq (by omega) hstart
          simp only [h1, h2, if_true, Bool.false_eq_true, if_false]
          unfold Flock.set_start FlockRange.set_start Flock.set_end FlockRange.set_end
            Flock.cloneF
          rw [hadd, hsub]
          rw [if_neg (by simp; omega), if_neg (by simp; omega)]
          exact ⟨_, rfl⟩
        · by_cases h3 : FlockRange.right_overlap_with lock.range ex.range = true
          · have h3p : ex.range.start < lock.range.start ∧
                FlockRange.overlap_with lock.range ex.range = true := by
              simp only [FlockRange.right_overlap_with, Bool.and_eq_true, decide_eq_true_eq]
                at h3
              exact ⟨h3.1.2, h3.1.1⟩
            have hsub : sub64 lock.range.start 1 = lock.range.start - 1 :=
              sub64_one_eq (by omega) hstart
            simp only [h1, h2, h3, if_true, Bool.false_eq_true, if_false]
            unfold Flock.set_end FlockRange.set_end
            rw [hsub, if_neg (by simp; omega)]
            apply ih
            · rw [List.length_set,
                List.countP_set (fun x => FlockRange.overlap_with lock.range x.range) l relIdx _
                  hrel]
              have hpex : FlockRange.overlap_with lock.range ex.range = true := h3p.2
              have hpex2 : FlockRange.overlap_with lock.range
                  ⟨ex.range.start, lock.range.start - 1⟩ = false := by
                simp [FlockRange.overlap_with]
                intro hc
                omega
              rw [← hexdef, hpex, hpex2]
              have hcpos : 0 < l.countP (fun x => FlockRange.overlap_with lock.range x.range) :=
                List.countP_pos_iff.mpr ⟨ex, hmem, hpex⟩
              simp only [if_true, Bool.false_eq_true, if_false]
              omega
            · intro x hx
              rcases List.mem_or_eq_of_mem_set hx with hx2 | hx2
              · exact hbound x hx2
              · subst hx2
                dsimp only
                omega
          · simp only [h1, h2, h3, Bool.false_eq_true, if_false]
            apply ih
            · have hlen : (l.eraseIdx relIdx).length = l.length - 1 := by
                rw [List.length_eraseIdx, if_pos hrel]
              have hcnt := List.Sublist.countP_le
                (fun x => FlockRange.overlap_with lock.range x.range)
                (List.eraseIdx_sublist l relIdx)
              omega
            · intro x hx
              exact hbound x ((List.eraseIdx_sublist l relIdx).subset hx)

/-- Claim C10: unlock never reports an error, and when no record
shares the request's owner and overlaps its range the list is left
unchanged. -/
theorem c10_unlock_total_and_frame (l : List Flock) (lock : Flock)
    (hstart : lock.range.start < USIZE)
    (hbound : ∀ x ∈ l, x.range.end_ < USIZE) :
    (∃ l2, FlockList.unlock l lock = .ok l2) ∧
    ((∀ x ∈ l, ¬ (x.owner = lock.owner ∧ FlockRange.overlap_with x.range lock.range = true)) →
      FlockList.unlock l lock = .ok l) := by
  constructor
  · exact unlockLoop_ok lock hstart _ l 0 (by omega) hbound
  · intro hnone
    have hpos : position
        (fun lk => Flock.same_owner_with lk lock && FlockRange.overlap_with lk.range lock.range)
        ((l.drop 0)) = none := by
      rw [List.drop_zero]
      apply position_eq_none_iff.mpr
      intro x hx
      have := hnone x hx
      simp only [Flock.same_owner_with, Bool.and_eq_false_iff, decide_eq_false_iff_not]
      by_cases ho : x.owner = lock.owner
      · right
        cases hov : FlockRange.overlap_with x.range lock.range
        · rfl
        · exact absurd ⟨ho, hov⟩ this
      · left
        exact fun hh => ho hh
    unfold FlockList.unlock
    rw [unlockLoop]
    rw [hpos]

/-- Witness for claim C10: unlocking [50, 60] for owner 2 on a list
holding only owner 1's [0, 99] succeeds and leaves the list
unchanged. -/
theorem c10_witness :
    FlockList.unlock [⟨1, .F_RDLCK, ⟨0, 99⟩, 1, none, true⟩]
      ⟨2, .F_UNLCK, ⟨50, 60⟩, 2, none, true⟩ =
      .ok [⟨1, .F_RDLCK, ⟨0, 99⟩, 1, none, true⟩] :=
  (c10_unlock_total_and_frame _ _ (by decide) (by decide)).2 (by decide)

/-- Claim C9: unlock applied twice is claimed to equal unlock applied
once.  The code computes the match position relative to the skipped
iterator but indexes the full list with it, so after skipping it
mutates the wrong record: on an invariant-satisfying list where owner
1 holds [10, 20] and [30, 40] and owner 2 holds [0, 100], owner 1
unlocking [15, 35] splits owner 2's record and leaves owner 1's
[30, 40] still overlapping the request; a second identical unlock then
shrinks it to [36, 40].  This theorem evaluates the code at that
failing input: the two results differ. -/
theorem c9_unlock_not_idempotent :
    listInvariants c9List ∧
    FlockList.unlock c9List c9Req = .ok c9Once ∧
    FlockList.unlock c9Once c9Req = .ok c9Twice ∧
    c9Once ≠ c9Twice :=
  ⟨by decide, by rfl, by rfl, by decide⟩

theorem usizeToOff_eq {n : Nat} (h : n < 2 ^ 63) : usizeToOff n = (n : Int) := by
  unfold usizeToOff
  rw [if_pos h]

/-- Claim C7: for a request resolving, through FlockRange::new, to an
absolute range r with r.end below RANGE_EOF, copying the lock out to
the boundary control structure and parsing that structure back yields
the very same range, with whence equal to SEEK_SET (code 0).  The
resolved start st is the off_t produced by whence resolution (SEEK_SET
passes l_start through; SEEK_CUR and SEEK_END produce a checked sum),
so quantifying over st in the i64 range covers all three origins. -/
theorem c7_copy_out_parse_back (st len : Int) (r : FlockRange) (lk : Flock) (c0 : c_flock)
    (pos size : Int)
    (hst2 : st ≤ 2 ^ 63 - 1) (hlen1 : -(2 : Int) ^ 63 ≤ len) (hlen2 : len ≤ 2 ^ 63 - 1)
    (hnew : FlockRange.new st len = .ok r) (heof : r.end_ < RANGE_EOF)
    (hty : lk.type_ ≠ .F_UNLCK) (hr : lk.range = r) :
    (c_flock.copy_from_safe c0 lk).l_whence = 0 ∧
    FlockRange.from_c_flock (c_flock.copy_from_safe c0 lk) pos size = .ok r := by
  have hEOF : (RANGE_EOF : Nat) = 2 ^ 64 - 1 := rfl
  have hUS : (USIZE : Nat) = 2 ^ 64 := rfl
  obtain ⟨lo, lt, lr, lp, lw, lnb⟩ := lk
  have hr2 : lr = r := hr
  clear hr
  subst hr2
  unfold FlockRange.new at hnew
  by_cases h0 : st < 0
  · rw [if_pos h0] at hnew
    exact absurd hnew (by simp)
  rw [if_neg h0] at hnew
  push_neg at h0
  by_cases hpos : 0 < len
  · rw [if_pos hpos] at hnew
    by_cases hov : st + (len - 1) ≤ (2 : Int) ^ 63 - 1
    · rw [if_pos hov] at hnew
      simp only [Except.ok.injEq] at hnew
      subst hnew
      have hstn : st.toNat < 2 ^ 63 := by omega
      have hendn : (st + (len - 1)).toNat < 2 ^ 63 := by omega
      have hend_ne : ¬ ((st + (len - 1)).toNat = RANGE_EOF) := by
        rw [hEOF]; omega
      have hl63 : len.toNat < 2 ^ 63 := by omega
      have hsubv : sub64 ((st + (len - 1)).toNat) st.toNat =
          (st + (len - 1)).toNat - st.toNat :=
        sub64_eq_of_le (by omega) (by rw [hUS]; omega)
      have haddv : add64 ((st + (len - 1)).toNat - st.toNat) 1 =
          ((st + (len - 1)).toNat - st.toNat) + 1 :=
        add64_eq_of_lt (by rw [hUS]; omega)
      have hlenval : FlockRange.len ⟨st.toNat, (st + (len - 1)).toNat⟩ = len.toNat := by
        unfold FlockRange.len
        dsimp only
        rw [hsubv, haddv]
        omega
      simp only [c_flock.copy_from_safe]
      rw [if_neg hty]
      refine ⟨rfl, ?_⟩
      simp only [FlockRange.from_c_flock]
      rw [if_neg hend_ne, hlenval, usizeToOff_eq hstn, usizeToOff_eq hl63,
        Int.toNat_of_nonneg h0, Int.toNat_of_nonneg (by omega)]
      unfold FlockRange.new
      rw [if_neg (by omega), if_pos hpos, if_pos hov]
    · rw [if_neg hov] at hnew
      exact absurd hnew (by simp)
  rw [if_neg hpos] at hnew
  by_cases hz : len = 0
  · rw [if_pos hz] at hnew
    simp only [Except.ok.injEq] at hnew
    subst hnew
    exact absurd heof (by simp)
  rw [if_neg hz] at hnew
  by_cases hneg : st + len < 0
  · rw [if_pos hneg] at hnew
    exact absurd hnew (by simp)
  rw [if_neg hneg] at hnew
  simp only [Except.ok.injEq] at hnew
  subst hnew
  have h1st : 1 ≤ st := by omega
  have hstn : (st + len).toNat < 2 ^ 63 := by omega
  have hendn : (st - 1).toNat < 2 ^ 63 := by omega
  have hend_ne : ¬ ((st - 1).toNat = RANGE_EOF) := by
    rw [hEOF]; omega
  have hl63 : (-len).toNat < 2 ^ 63 := by omega
  have hsubv : sub64 ((st - 1).toNat) ((st + len).toNat) =
      (st - 1).toNat - (st + len).toNat :=
    sub64_eq_of_le (by omega) (by rw [hUS]; omega)
  have haddv : add64 ((st - 1).toNat - (st + len).toNat) 1 =
      ((st - 1).toNat - (st + len).toNat) + 1 :=
    add64_eq_of_lt (by rw [hUS]; omega)
  have hlenval : FlockRange.len ⟨(st + len).toNat, (st - 1).toNat⟩ = (-len).toNat := by
    unfold FlockRange.len
    dsimp only
    rw [hsubv, haddv]
    omega
  simp only [c_flock.copy_from_safe]
  rw [if_neg hty]
  refine ⟨rfl, ?_⟩
  simp only [FlockRange.from_c_flock]
  rw [if_neg hend_ne, hlenval, usizeToOff_eq hstn, usizeToOff_eq hl63,
    Int.toNat_of_nonneg (by omega), Int.toNat_of_nonneg (by omega)]
  unfold FlockRange.new
  rw [if_neg (by omega), if_pos (by omega), if_pos (by omega)]
  rw [show st + len + (-len - 1) = st - 1 by ring]

/-- Witness for claim C7: the request (start 5, len 6) resolves to
[5, 10]; copy-out then parse-back returns [5, 10] with whence 0. -/
theorem c7_witness :
    (c_flock.copy_from_safe ⟨9, 9, 9, 9, 9⟩ ⟨1, .F_RDLCK, ⟨5, 10⟩, 1, none, true⟩).l_whence
      = 0 ∧
    FlockRange.from_c_flock
      (c_flock.copy_from_safe ⟨9, 9, 9, 9, 9⟩ ⟨1, .F_RDLCK, ⟨5, 10⟩, 1, none, true⟩) 0 0 =
      .ok ⟨5, 10⟩ :=
  c7_copy_out_parse_back 5 6 ⟨5, 10⟩ ⟨1, .F_RDLCK, ⟨5, 10⟩, 1, none, true⟩ ⟨9, 9, 9, 9, 9⟩ 0 0
    (by decide) (by decide) (by decide) (by rfl) (by decide) (by decide) rfl
